import Mathlib

/-!
Verification of the matching pipeline of the Game-Name-To-Steam-App-ID tool
(src/index.js): exact-match partition, bigram-similarity best match with a
threshold, and the orchestration around them.

Steam app ids are modelled as `Nat` and similarity scores as `ℚ`; JS
string-keyed objects are modelled as association lists in insertion order with
overwrite-on-existing-key semantics (`jsInsert`).
-/

namespace GameNameToSteamAppId

/-- JS `String.prototype.toLowerCase()` modelled character-wise with Lean's
ASCII `Char.toLower` (defined on the character list so that it evaluates). -/
def strToLower (s : String) : String := ⟨s.data.map Char.toLower⟩

/-- A Steam catalog entry `{appid, name}` as returned by the catalog fetch
(`fetchSteamApps`, src/index.js). -/
structure SteamApp where
  appid : Nat
  name : String
deriving DecidableEq, Repr

/-- Modelled from the spec: the multiset of two-character substrings (bigrams)
of a string, with multiplicity. The bigram similarity metric lives in the
`string-similarity` dependency, which is not part of src/. -/
def bigrams (s : String) : Multiset (Char × Char) :=
  ↑(s.data.zip s.data.tail)

/-- Modelled from the spec: symmetric bigram-overlap (Dice) similarity,
`2 * |bigrams A ∩ bigrams B| / (|bigrams A| + |bigrams B|)` with multiset
intersection; a comparison involving a string shorter than two characters
scores 0 unless the strings are identical, in which case the score is 1.
The implementing `string-similarity` library is a dependency not in src/. -/
def compareTwoStrings (a b : String) : ℚ :=
  if a = b then 1
  else if a.length < 2 ∨ b.length < 2 then 0
  else 2 * ((bigrams a ∩ bigrams b).card : ℚ) /
    (((bigrams a).card : ℚ) + ((bigrams b).card : ℚ))

/-- JS object property assignment `obj[k] = v` for string-keyed objects:
when the key already exists its value is replaced in place (keeping the key's
position), otherwise the new key is appended at the end (JS insertion order). -/
def jsInsert (m : List (String × α)) (k : String) (v : α) : List (String × α) :=
  if m.any (fun p => p.1 == k) then
    m.map (fun p => if p.1 = k then (k, v) else p)
  else m ++ [(k, v)]

/-- The result record of `findSteamAppIdsFullMatch` (src/index.js line 144). -/
structure FullMatchResult where
  steamIDsSingleFullMatch : List (String × Nat)
  steamIDsMultipleFullMatches : List (String × List Nat)
  remainingGameNames : List String
deriving DecidableEq, Repr

/-- The loop of `findSteamAppIdsFullMatch` (src/index.js lines 128-140):
for each query name, filter the catalog for case-sensitively equal names and
route the name by the number of matches (one, several, none). -/
def fullMatchLoop (steamApps : List SteamApp) :
    List String → List (String × Nat) → List (String × List Nat) → List String →
    FullMatchResult
  | [], single, multi, remaining => ⟨single, multi, remaining⟩
  | game :: rest, single, multi, remaining =>
    match steamApps.filter (fun app => app.name == game) with
    | [] => fullMatchLoop steamApps rest single multi (remaining ++ [game])
    | [m] => fullMatchLoop steamApps rest (jsInsert single game m.appid) multi remaining
    | ms => fullMatchLoop steamApps rest single
        (jsInsert multi game (ms.map (fun app => app.appid))) remaining

/-- `findSteamAppIdsFullMatch` (src/index.js lines 121-145), with the two
JS result objects as insertion-ordered association lists. -/
def findSteamAppIdsFullMatch (gameNames : List String) (steamApps : List SteamApp) :
    FullMatchResult :=
  fullMatchLoop steamApps gameNames [] [] []

/-- Modelled from the spec: the scan of `findBestMatch` of the
`string-similarity` dependency (not in src/) over the ratings list, keeping the
earliest index whose rating is maximal (the running best is replaced only on a
strictly greater rating). -/
def bestOfAux (i : Nat) (best : Nat × ℚ) : List ℚ → Nat × ℚ
  | [] => best
  | r :: rs => bestOfAux (i + 1) (if best.2 < r then (i, r) else best) rs

/-- Modelled from the spec: `findBestMatch` of the `string-similarity`
dependency (not in src/) — rate every target against the query and return the
earliest best index with its rating; it fails on an empty target list,
modelled as `none`. -/
def findBestMatch (mainString : String) (targets : List String) : Option (Nat × ℚ) :=
  match targets with
  | [] => none
  | t :: ts =>
    some (bestOfAux 1 (0, compareTwoStrings mainString t)
      (ts.map (fun s => compareTwoStrings mainString s)))

/-- The record stored per accepted similarity match
(src/index.js lines 174-178). -/
structure BestEntry where
  appId : Nat
  similarity : ℚ
  steamName : String
deriving DecidableEq, Repr

/-- The loop of `findSteamAppIdsBestMatch` (src/index.js lines 171-185):
rate each remaining name against the lower-cased catalog, accept when the best
rating is at least the threshold, otherwise push onto `steamIDsNoMatch`.
Indexing the catalog at the best index is partial, hence `Option`. -/
def bestMatchLoop (steamApps : List SteamApp) (partialMatchThreshold : ℚ) :
    List String → List (String × BestEntry) → List String →
    Option (List (String × BestEntry) × List String)
  | [], best, noMatch => some (best, noMatch)
  | game :: rest, best, noMatch =>
    match findBestMatch (strToLower game) (steamApps.map (fun app => strToLower app.name)) with
    | none => none
    | some (idx, rating) =>
      match steamApps[idx]? with
      | none => none
      | some app =>
        if partialMatchThreshold ≤ rating then
          bestMatchLoop steamApps partialMatchThreshold rest
            (jsInsert best game ⟨app.appid, rating, app.name⟩) noMatch
        else
          bestMatchLoop steamApps partialMatchThreshold rest best (noMatch ++ [game])

/-- Stable insertion into a descending-sorted list: the new entry goes after
every entry whose similarity is at least as high. This realizes the JS stable
`Array.prototype.sort` with comparator `b.similarity - a.similarity`
(src/index.js line 190). -/
def insertDesc (x : String × BestEntry) :
    List (String × BestEntry) → List (String × BestEntry)
  | [] => [x]
  | y :: ys => if y.2.similarity < x.2.similarity then x :: y :: ys else y :: insertDesc x ys

/-- The stable descending sort by similarity score applied to the accepted
matches (src/index.js line 190). -/
def sortBySimilarityDesc (entries : List (String × BestEntry)) :
    List (String × BestEntry) :=
  entries.foldl (fun acc x => insertDesc x acc) []

/-- `findSteamAppIdsBestMatch` (src/index.js lines 148-195): threshold loop
followed by the stable descending sort of the accepted matches. -/
def findSteamAppIdsBestMatch (gameNames : List String) (steamApps : List SteamApp)
    (partialMatchThreshold : ℚ) : Option (List (String × BestEntry) × List String) :=
  (bestMatchLoop steamApps partialMatchThreshold gameNames [] []).map
    (fun r => (sortBySimilarityDesc r.1, r.2))

/-- The four result groupings `main` (src/index.js lines 59-96) hands to the
output writer; the similarity groupings are absent (`none`) when the
similarity pass does not run. -/
structure PipelineOutput where
  steamIDsSingleFullMatch : List (String × Nat)
  steamIDsMultipleFullMatches : List (String × List Nat)
  steamIDsBestMatch : Option (List (String × BestEntry))
  steamIDsNoMatch : Option (List String)
deriving DecidableEq, Repr

/-- `main` (src/index.js lines 59-96): run the exact-match pass, then — unless
`CONFIG.onlyFullMatches` is set — run the similarity pass on the remaining
names. -/
def main (onlyFullMatches : Bool) (partialMatchThreshold : ℚ)
    (steamApps : List SteamApp) (gameNames : List String) : Option PipelineOutput :=
  let r := findSteamAppIdsFullMatch gameNames steamApps
  if onlyFullMatches then
    some ⟨r.steamIDsSingleFullMatch, r.steamIDsMultipleFullMatches, none, none⟩
  else
    match findSteamAppIdsBestMatch r.remainingGameNames steamApps partialMatchThreshold with
    | none => none
    | some (best, noMatch) =>
      some ⟨r.steamIDsSingleFullMatch, r.steamIDsMultipleFullMatches, some best, some noMatch⟩

/-- The two arrays handed to the passes, as mutable heap cells: any array write
the source performed on them would show up as a changed field. -/
structure Heap where
  steamApps : List SteamApp
  gameNames : List String
deriving DecidableEq, Repr

/-- `fullMatchLoop` threaded through the heap: each iteration reads
`h.steamApps` and writes neither array (the source only calls `filter`, `map`
and `push` on freshly created arrays). -/
def fullMatchLoopH (h : Heap) :
    List String → List (String × Nat) → List (String × List Nat) → List String →
    Heap × FullMatchResult
  | [], single, multi, remaining => (h, ⟨single, multi, remaining⟩)
  | game :: rest, single, multi, remaining =>
    match h.steamApps.filter (fun app => app.name == game) with
    | [] => fullMatchLoopH h rest single multi (remaining ++ [game])
    | [m] => fullMatchLoopH h rest (jsInsert single game m.appid) multi remaining
    | ms => fullMatchLoopH h rest single
        (jsInsert multi game (ms.map (fun app => app.appid))) remaining

/-- `findSteamAppIdsFullMatch` over the heap. -/
def findSteamAppIdsFullMatchH (h : Heap) : Heap × FullMatchResult :=
  fullMatchLoopH h h.gameNames [] [] []

/-- `bestMatchLoop` threaded through the heap: lower-casing happens on copies
(`map` over `h.steamApps` and the query names), the originals are only read. -/
def bestMatchLoopH (h : Heap) (partialMatchThreshold : ℚ) :
    List String → List (String × BestEntry) → List String →
    Heap × Option (List (String × BestEntry) × List String)
  | [], best, noMatch => (h, some (best, noMatch))
  | game :: rest, best, noMatch =>
    match findBestMatch (strToLower game) (h.steamApps.map (fun app => strToLower app.name)) with
    | none => (h, none)
    | some (idx, rating) =>
      match h.steamApps[idx]? with
      | none => (h, none)
      | some app =>
        if partialMatchThreshold ≤ rating then
          bestMatchLoopH h partialMatchThreshold rest
            (jsInsert best game ⟨app.appid, rating, app.name⟩) noMatch
        else
          bestMatchLoopH h partialMatchThreshold rest best (noMatch ++ [game])

/-- `findSteamAppIdsBestMatch` over the heap. -/
def findSteamAppIdsBestMatchH (h : Heap) (partialMatchThreshold : ℚ) :
    Heap × Option (List (String × BestEntry) × List String) :=
  let r := bestMatchLoopH h partialMatchThreshold h.gameNames [] []
  (r.1, r.2.map (fun p => (sortBySimilarityDesc p.1, p.2)))

/-! ## Lemmas and claim theorems -/

lemma card_bigrams (s : String) : (bigrams s).card = s.length - 1 := by
  show (s.data.zip s.data.tail).length = s.length - 1
  have hlen : s.length = s.data.length := rfl
  rw [List.length_zip, List.length_tail]
  omega

lemma compareTwoStrings_self (a : String) : compareTwoStrings a a = 1 := by
  simp [compareTwoStrings]

lemma compareTwoStrings_nonneg (a b : String) : 0 ≤ compareTwoStrings a b := by
  unfold compareTwoStrings
  split_ifs
  · norm_num
  · norm_num
  · apply div_nonneg
    · positivity
    · positivity

lemma compareTwoStrings_le_one (a b : String) : compareTwoStrings a b ≤ 1 := by
  unfold compareTwoStrings
  split_ifs with h1 h2
  · norm_num
  · norm_num
  · push_neg at h2
    have hA : 1 ≤ (bigrams a).card := by
      rw [card_bigrams]; omega
    have hB : 1 ≤ (bigrams b).card := by
      rw [card_bigrams]; omega
    have hIa : (bigrams a ∩ bigrams b).card ≤ (bigrams a).card :=
      Multiset.card_le_card (Multiset.inter_le_left _ _)
    have hIb : (bigrams a ∩ bigrams b).card ≤ (bigrams b).card :=
      Multiset.card_le_card (Multiset.inter_le_right _ _)
    rw [div_le_one (by positivity)]
    have hIa' : ((bigrams a ∩ bigrams b).card : ℚ) ≤ ((bigrams a).card : ℚ) := by
      exact_mod_cast hIa
    have hIb' : ((bigrams a ∩ bigrams b).card : ℚ) ≤ ((bigrams b).card : ℚ) := by
      exact_mod_cast hIb
    linarith

lemma compareTwoStrings_symm (a b : String) :
    compareTwoStrings a b = compareTwoStrings b a := by
  unfold compareTwoStrings
  by_cases h : a = b
  · subst h; simp
  · have h' : ¬b = a := fun h2 => h h2.symm
    rw [if_neg h, if_neg h']
    by_cases h2 : a.length < 2 ∨ b.length < 2
    · rw [if_pos h2, if_pos (Or.symm h2)]
    · rw [if_neg h2, if_neg (fun h3 => h2 (Or.symm h3))]
      rw [Multiset.inter_comm, add_comm]

lemma jsInsert_of_not_key (m : List (String × α)) (k : String) (v : α)
    (h : ¬m.any (fun p => p.1 == k)) : jsInsert m k v = m ++ [(k, v)] := by
  simp only [jsInsert, if_neg h]

lemma lookup_map_replace (m : List (String × α)) (k : String) (v : α)
    (h : m.any (fun p => p.1 == k)) :
    (m.map (fun p => if p.1 = k then (k, v) else p)).lookup k = some v := by
  induction m with
  | nil => simp at h
  | cons p t ih =>
    simp only [List.map_cons]
    by_cases hp : p.1 = k
    · rw [if_pos hp]
      simp [List.lookup_cons]
    · rw [if_neg hp]
      have hk : k ≠ p.1 := fun h2 => hp h2.symm
      rw [List.lookup_cons, beq_false_of_ne hk]
      simp only [List.any_cons, Bool.or_eq_true, beq_iff_eq] at h
      rcases h with h | h
      · exact absurd h hp
      · exact ih h

lemma lookup_append_single (m : List (String × α)) (k : String) (v : α)
    (h : ¬m.any (fun p => p.1 == k)) :
    (m ++ [(k, v)]).lookup k = some v := by
  induction m with
  | nil => simp [List.lookup_cons]
  | cons p t ih =>
    simp only [List.any_cons, Bool.or_eq_true, beq_iff_eq, not_or] at h
    have hk : k ≠ p.1 := fun h2 => h.1 h2.symm
    rw [List.cons_append, List.lookup_cons, beq_false_of_ne hk]
    exact ih (by simpa using h.2)

lemma jsInsert_lookup_self (m : List (String × α)) (k : String) (v : α) :
    (jsInsert m k v).lookup k = some v := by
  unfold jsInsert
  split_ifs with h
  · exact lookup_map_replace m k v h
  · exact lookup_append_single m k v h

lemma lookup_map_replace_ne (m : List (String × α)) (k k' : String) (v : α)
    (h : k ≠ k') :
    (m.map (fun p => if p.1 = k' then (k', v) else p)).lookup k = m.lookup k := by
  induction m with
  | nil => simp
  | cons p t ih =>
    simp only [List.map_cons]
    by_cases hp : p.1 = k'
    · rw [if_pos hp, List.lookup_cons, List.lookup_cons, beq_false_of_ne h]
      have hk2 : k ≠ p.1 := by rw [hp]; exact h
      rw [beq_false_of_ne hk2]
      exact ih
    · rw [if_neg hp, List.lookup_cons, List.lookup_cons]
      by_cases hkp : k = p.1
      · rw [beq_iff_eq.mpr hkp]
      · rw [beq_false_of_ne hkp]
        exact ih

lemma lookup_append_single_ne (m : List (String × α)) (k k' : String) (v : α)
    (h : k ≠ k') : (m ++ [(k', v)]).lookup k = m.lookup k := by
  induction m with
  | nil => simp [List.lookup_cons, beq_false_of_ne h]
  | cons p t ih =>
    rw [List.cons_append, List.lookup_cons, List.lookup_cons]
    by_cases hkp : k = p.1
    · rw [beq_iff_eq.mpr hkp]
    · rw [beq_false_of_ne hkp]
      exact ih

lemma jsInsert_lookup_ne (m : List (String × α)) (k k' : String) (v : α)
    (h : k ≠ k') : (jsInsert m k' v).lookup k = m.lookup k := by
  unfold jsInsert
  split_ifs with hany
  · exact lookup_map_replace_ne m k k' v h
  · exact lookup_append_single_ne m k k' v h

lemma jsInsert_keys_of_not_key (m : List (String × α)) (k : String) (v : α)
    (h : ¬m.any (fun p => p.1 == k)) :
    (jsInsert m k v).map Prod.fst = m.map Prod.fst ++ [k] := by
  rw [jsInsert_of_not_key m k v h]
  simp

lemma fullMatchLoop_remaining (apps : List SteamApp) (gs : List String)
    (s : List (String × Nat)) (mu : List (String × List Nat)) (rem : List String) :
    (fullMatchLoop apps gs s mu rem).remainingGameNames =
      rem ++ gs.filter (fun g => (apps.filter (fun a => a.name == g)).isEmpty) := by
  induction gs generalizing s mu rem with
  | nil => simp [fullMatchLoop]
  | cons game rest ih =>
    rcases hfil : apps.filter (fun app => app.name == game) with _ | ⟨m1, _ | ⟨m2, ms⟩⟩
    · simp only [fullMatchLoop, hfil, ih, List.filter_cons, List.isEmpty_iff]
      simp [hfil]
    · simp only [fullMatchLoop, hfil, ih, List.filter_cons, List.isEmpty_iff]
      simp [hfil]
    · simp only [fullMatchLoop, hfil, ih, List.filter_cons, List.isEmpty_iff]
      simp [hfil]

lemma fullMatch_single_not_mem (apps : List SteamApp) (gs : List String)
    (s : List (String × Nat)) (mu : List (String × List Nat)) (rem : List String)
    (g : String) (hg : g ∉ gs) :
    (fullMatchLoop apps gs s mu rem).steamIDsSingleFullMatch.lookup g = s.lookup g := by
  induction gs generalizing s mu rem with
  | nil => simp [fullMatchLoop]
  | cons game rest ih =>
    have hne : g ≠ game := fun h => hg (h ▸ List.mem_cons_self game rest)
    have hrest : g ∉ rest := fun h => hg (List.mem_cons_of_mem game h)
    rcases hfil : apps.filter (fun app => app.name == game) with _ | ⟨m1, _ | ⟨m2, ms⟩⟩
    · simp only [fullMatchLoop, hfil]
      exact ih _ _ _ hrest
    · simp only [fullMatchLoop, hfil]
      rw [ih _ _ _ hrest, jsInsert_lookup_ne _ _ _ _ hne]
    · simp only [fullMatchLoop, hfil]
      exact ih _ _ _ hrest

lemma fullMatch_multi_not_mem (apps : List SteamApp) (gs : List String)
    (s : List (String × Nat)) (mu : List (String × List Nat)) (rem : List String)
    (g : String) (hg : g ∉ gs) :
    (fullMatchLoop apps gs s mu rem).steamIDsMultipleFullMatches.lookup g = mu.lookup g := by
  induction gs generalizing s mu rem with
  | nil => simp [fullMatchLoop]
  | cons game rest ih =>
    have hne : g ≠ game := fun h => hg (h ▸ List.mem_cons_self game rest)
    have hrest : g ∉ rest := fun h => hg (List.mem_cons_of_mem game h)
    rcases hfil : apps.filter (fun app => app.name == game) with _ | ⟨m1, _ | ⟨m2, ms⟩⟩
    · simp only [fullMatchLoop, hfil]
      exact ih _ _ _ hrest
    · simp only [fullMatchLoop, hfil]
      exact ih _ _ _ hrest
    · simp only [fullMatchLoop, hfil]
      rw [ih _ _ _ hrest, jsInsert_lookup_ne _ _ _ _ hne]

lemma fullMatch_single_stays (apps : List SteamApp) (gs : List String)
    (s : List (String × Nat)) (mu : List (String × List Nat)) (rem : List String)
    (g : String) (hlen : (apps.filter (fun a => a.name == g)).length ≠ 1) :
    (fullMatchLoop apps gs s mu rem).steamIDsSingleFullMatch.lookup g = s.lookup g := by
  induction gs generalizing s mu rem with
  | nil => simp [fullMatchLoop]
  | cons game rest ih =>
    rcases hfil : apps.filter (fun app => app.name == game) with _ | ⟨m1, _ | ⟨m2, ms⟩⟩
    · simp only [fullMatchLoop, hfil]
      exact ih _ _ _
    · have hne : g ≠ game := by
        intro h
        subst h
        rw [hfil] at hlen
        simp at hlen
      simp only [fullMatchLoop, hfil]
      rw [ih _ _ _, jsInsert_lookup_ne _ _ _ _ hne]
    · simp only [fullMatchLoop, hfil]
      exact ih _ _ _

lemma fullMatch_multi_stays (apps : List SteamApp) (gs : List String)
    (s : List (String × Nat)) (mu : List (String × List Nat)) (rem : List String)
    (g : String) (hlen : (apps.filter (fun a => a.name == g)).length < 2) :
    (fullMatchLoop apps gs s mu rem).steamIDsMultipleFullMatches.lookup g = mu.lookup g := by
  induction gs generalizing s mu rem with
  | nil => simp [fullMatchLoop]
  | cons game rest ih =>
    rcases hfil : apps.filter (fun app => app.name == game) with _ | ⟨m1, _ | ⟨m2, ms⟩⟩
    · simp only [fullMatchLoop, hfil]
      exact ih _ _ _
    · simp only [fullMatchLoop, hfil]
      exact ih _ _ _
    · have hne : g ≠ game := by
        intro h
        subst h
        rw [hfil] at hlen
        simp at hlen
        omega
      simp only [fullMatchLoop, hfil]
      rw [ih _ _ _, jsInsert_lookup_ne _ _ _ _ hne]

lemma fullMatch_single_set (apps : List SteamApp) (gs : List String)
    (s : List (String × Nat)) (mu : List (String × List Nat)) (rem : List String)
    (g : String) (m : SteamApp) (hg : g ∈ gs)
    (hf : apps.filter (fun a => a.name == g) = [m]) :
    (fullMatchLoop apps gs s mu rem).steamIDsSingleFullMatch.lookup g = some m.appid := by
  induction gs generalizing s mu rem with
  | nil => cases hg
  | cons game rest ih =>
    by_cases hgame : game = g
    · subst hgame
      simp only [fullMatchLoop, hf]
      by_cases hmem : game ∈ rest
      · exact ih _ _ _ hmem
      · rw [fullMatch_single_not_mem _ _ _ _ _ _ hmem, jsInsert_lookup_self]
    · have hgrest : g ∈ rest := by
        rcases List.mem_cons.mp hg with h | h
        · exact absurd h.symm hgame
        · exact h
      rcases hfil : apps.filter (fun app => app.name == game) with _ | ⟨m1, _ | ⟨m2, ms⟩⟩
      · simp only [fullMatchLoop, hfil]
        exact ih _ _ _ hgrest
      · simp only [fullMatchLoop, hfil]
        exact ih _ _ _ hgrest
      · simp only [fullMatchLoop, hfil]
        exact ih _ _ _ hgrest

lemma fullMatch_multi_set (apps : List SteamApp) (gs : List String)
    (s : List (String × Nat)) (mu : List (String × List Nat)) (rem : List String)
    (g : String) (m1 m2 : SteamApp) (ms : List SteamApp) (hg : g ∈ gs)
    (hf : apps.filter (fun a => a.name == g) = m1 :: m2 :: ms) :
    (fullMatchLoop apps gs s mu rem).steamIDsMultipleFullMatches.lookup g =
      some ((m1 :: m2 :: ms).map (fun app => app.appid)) := by
  induction gs generalizing s mu rem with
  | nil => cases hg
  | cons game rest ih =>
    by_cases hgame : game = g
    · subst hgame
      simp only [fullMatchLoop, hf]
      by_cases hmem : game ∈ rest
      · exact ih _ _ _ hmem
      · rw [fullMatch_multi_not_mem _ _ _ _ _ _ hmem, jsInsert_lookup_self]
    · have hgrest : g ∈ rest := by
        rcases List.mem_cons.mp hg with h | h
        · exact absurd h.symm hgame
        · exact h
      rcases hfil : apps.filter (fun app => app.name == game) with _ | ⟨m1', _ | ⟨m2', ms'⟩⟩
      · simp only [fullMatchLoop, hfil]
        exact ih _ _ _ hgrest
      · simp only [fullMatchLoop, hfil]
        exact ih _ _ _ hgrest
      · simp only [fullMatchLoop, hfil]
        exact ih _ _ _ hgrest

/-- C7: the bigram-overlap similarity used by the similarity pass satisfies
`similarity(A, A) = 1`, `0 ≤ similarity(A, B) ≤ 1` and
`similarity(A, B) = similarity(B, A)`. -/
theorem c7_similarity_bounds_identity_symm (a b : String) :
    compareTwoStrings a a = 1 ∧
    0 ≤ compareTwoStrings a b ∧ compareTwoStrings a b ≤ 1 ∧
    compareTwoStrings a b = compareTwoStrings b a :=
  ⟨compareTwoStrings_self a, compareTwoStrings_nonneg a b,
    compareTwoStrings_le_one a b, compareTwoStrings_symm a b⟩


lemma fullMatch_single_keys (apps : List SteamApp) (gs : List String)
    (s : List (String × Nat)) (mu : List (String × List Nat)) (rem : List String)
    (hnd : gs.Nodup) (hfresh : ∀ x ∈ gs, ¬s.any (fun p => p.1 == x)) :
    (fullMatchLoop apps gs s mu rem).steamIDsSingleFullMatch.map Prod.fst =
      s.map Prod.fst ++
        gs.filter (fun g => (apps.filter (fun a => a.name == g)).length == 1) := by
  induction gs generalizing s mu rem with
  | nil => simp [fullMatchLoop]
  | cons game rest ih =>
    obtain ⟨hgame, hndr⟩ := List.nodup_cons.mp hnd
    have hfr : ∀ x ∈ rest, ¬s.any (fun p => p.1 == x) :=
      fun x hx => hfresh x (List.mem_cons_of_mem game hx)
    rcases hfil : apps.filter (fun app => app.name == game) with _ | ⟨m1, _ | ⟨m2, ms⟩⟩
    · simp only [fullMatchLoop, hfil]
      rw [ih _ _ _ hndr hfr, List.filter_cons]
      simp [hfil]
    · have hf : ¬s.any (fun p => p.1 == game) := hfresh game (List.mem_cons_self game rest)
      have hins : jsInsert s game m1.appid = s ++ [(game, m1.appid)] :=
        jsInsert_of_not_key s game m1.appid hf
      have hfr' : ∀ x ∈ rest, ¬(jsInsert s game m1.appid).any (fun p => p.1 == x) := by
        intro x hx
        rw [hins]
        simp only [List.any_append, Bool.or_eq_true, not_or]
        refine ⟨hfr x hx, ?_⟩
        simp only [List.any_cons, List.any_nil, Bool.or_false, beq_iff_eq]
        exact fun h => hgame (h ▸ hx)
      simp only [fullMatchLoop, hfil]
      rw [ih _ _ _ hndr hfr', hins, List.filter_cons]
      simp [hfil]
    · simp only [fullMatchLoop, hfil]
      rw [ih _ _ _ hndr hfr, List.filter_cons]
      simp [hfil]

lemma fullMatch_multi_keys (apps : List SteamApp) (gs : List String)
    (s : List (String × Nat)) (mu : List (String × List Nat)) (rem : List String)
    (hnd : gs.Nodup) (hfresh : ∀ x ∈ gs, ¬mu.any (fun p => p.1 == x)) :
    (fullMatchLoop apps gs s mu rem).steamIDsMultipleFullMatches.map Prod.fst =
      mu.map Prod.fst ++
        gs.filter (fun g => decide (1 < (apps.filter (fun a => a.name == g)).length)) := by
  induction gs generalizing s mu rem with
  | nil => simp [fullMatchLoop]
  | cons game rest ih =>
    obtain ⟨hgame, hndr⟩ := List.nodup_cons.mp hnd
    have hfr : ∀ x ∈ rest, ¬mu.any (fun p => p.1 == x) :=
      fun x hx => hfresh x (List.mem_cons_of_mem game hx)
    rcases hfil : apps.filter (fun app => app.name == game) with _ | ⟨m1, _ | ⟨m2, ms⟩⟩
    · simp only [fullMatchLoop, hfil]
      rw [ih _ _ _ hndr hfr, List.filter_cons]
      simp [hfil]
    · simp only [fullMatchLoop, hfil]
      rw [ih _ _ _ hndr hfr, List.filter_cons]
      simp [hfil]
    · have hf : ¬mu.any (fun p => p.1 == game) := hfresh game (List.mem_cons_self game rest)
      have hins : jsInsert mu game ((m1 :: m2 :: ms).map (fun app => app.appid)) =
          mu ++ [(game, (m1 :: m2 :: ms).map (fun app => app.appid))] :=
        jsInsert_of_not_key mu game _ hf
      have hfr' : ∀ x ∈ rest,
          ¬(jsInsert mu game ((m1 :: m2 :: ms).map (fun app => app.appid))).any
            (fun p => p.1 == x) := by
        intro x hx
        rw [hins]
        simp only [List.any_append, Bool.or_eq_true, not_or]
        refine ⟨hfr x hx, ?_⟩
        simp only [List.any_cons, List.any_nil, Bool.or_false, beq_iff_eq]
        exact fun h => hgame (h ▸ hx)
      simp only [fullMatchLoop, hfil]
      rw [ih _ _ _ hndr hfr', hins, List.filter_cons]
      simp [hfil]

lemma filter_three_partition (l : List String) (p q r : String → Bool)
    (h : ∀ x, (p x = true ∨ q x = true ∨ r x = true) ∧
      ¬(p x = true ∧ q x = true) ∧ ¬(p x = true ∧ r x = true) ∧
      ¬(q x = true ∧ r x = true)) :
    (l.filter p ++ l.filter q ++ l.filter r).Perm l := by
  induction l with
  | nil => simp
  | cons a t ih =>
    obtain ⟨h1, h2, h3, h4⟩ := h a
    simp only [List.filter_cons]
    rcases hp : p a with _ | _ <;> rcases hq : q a with _ | _ <;> rcases hr : r a with _ | _
    · rw [hp, hq, hr] at h1
      simp at h1
    · simp only [reduceIte]
      exact List.Perm.trans List.perm_middle (List.Perm.cons a ih)
    · simp only [reduceIte]
      rw [List.append_assoc, List.cons_append]
      refine List.Perm.trans List.perm_middle (List.Perm.cons a ?_)
      rw [← List.append_assoc]
      exact ih
    · rw [hq, hr] at h4
      simp at h4
    · simp only [reduceIte, List.cons_append]
      exact List.Perm.cons a ih
    · rw [hp, hr] at h3
      simp at h3
    · rw [hp, hq] at h2
      simp at h2
    · rw [hp, hq] at h2
      simp at h2


theorem c1_exact_match_partition (steamApps : List SteamApp) (gameNames : List String)
    (hnd : gameNames.Nodup) :
    (∀ g ∈ gameNames,
      ((g ∈ (findSteamAppIdsFullMatch gameNames steamApps).steamIDsSingleFullMatch.map Prod.fst) ↔
        (steamApps.filter (fun a => a.name == g)).length = 1) ∧
      ((g ∈ (findSteamAppIdsFullMatch gameNames steamApps).steamIDsMultipleFullMatches.map Prod.fst) ↔
        1 < (steamApps.filter (fun a => a.name == g)).length) ∧
      ((g ∈ (findSteamAppIdsFullMatch gameNames steamApps).remainingGameNames) ↔
        (steamApps.filter (fun a => a.name == g)).length = 0)) ∧
    ((((findSteamAppIdsFullMatch gameNames steamApps).steamIDsSingleFullMatch.map Prod.fst ++
       (findSteamAppIdsFullMatch gameNames steamApps).steamIDsMultipleFullMatches.map Prod.fst ++
       (findSteamAppIdsFullMatch gameNames steamApps).remainingGameNames : List String) :
        Multiset String) = (gameNames : Multiset String)) := by
  have hs := fullMatch_single_keys steamApps gameNames [] [] [] hnd (by simp)
  have hm := fullMatch_multi_keys steamApps gameNames [] [] [] hnd (by simp)
  have hr := fullMatchLoop_remaining steamApps gameNames [] [] []
  simp only [List.map_nil, List.nil_append] at hs hm hr
  unfold findSteamAppIdsFullMatch
  rw [hs, hm, hr]
  constructor
  · intro g hg
    refine ⟨?_, ?_, ?_⟩
    · rw [List.mem_filter]
      simp [hg]
    · rw [List.mem_filter]
      simp [hg]
    · rw [List.mem_filter]
      simp [hg, List.isEmpty_iff_length_eq_zero]
  · rw [Multiset.coe_eq_coe]
    apply filter_three_partition
    intro x
    simp only [beq_iff_eq, decide_eq_true_eq, List.isEmpty_iff_length_eq_zero, Nat.beq_eq]
    omega

theorem c1_counterexample :
    ¬((((findSteamAppIdsFullMatch ["A", "A"] [⟨1, "A"⟩]).steamIDsSingleFullMatch.map Prod.fst ++
        (findSteamAppIdsFullMatch ["A", "A"] [⟨1, "A"⟩]).steamIDsMultipleFullMatches.map Prod.fst ++
        (findSteamAppIdsFullMatch ["A", "A"] [⟨1, "A"⟩]).remainingGameNames : List String) :
          Multiset String) = ((["A", "A"] : List String) : Multiset String)) := by
  decide

theorem c4_ambiguous_matches (steamApps : List SteamApp) (gameNames : List String)
    (n : String) (hg : n ∈ gameNames)
    (hlen : 2 ≤ (steamApps.filter (fun a => a.name == n)).length) :
    (findSteamAppIdsFullMatch gameNames steamApps).steamIDsMultipleFullMatches.lookup n =
      some ((steamApps.filter (fun a => a.name == n)).map (fun app => app.appid)) := by
  rcases hfil : steamApps.filter (fun a => a.name == n) with _ | ⟨m1, _ | ⟨m2, ms⟩⟩
  · rw [hfil] at hlen
    simp at hlen
  · rw [hfil] at hlen
    simp at hlen
  · unfold findSteamAppIdsFullMatch
    rw [hfil]
    exact fullMatch_multi_set steamApps gameNames [] [] [] n m1 m2 ms hg hfil

theorem c4_witness :
    ("A" ∈ (["A"] : List String)) ∧
    2 ≤ (([⟨10, "A"⟩, ⟨20, "A"⟩] : List SteamApp).filter (fun a => a.name == "A")).length ∧
    (findSteamAppIdsFullMatch ["A"] [⟨10, "A"⟩, ⟨20, "A"⟩]).steamIDsMultipleFullMatches.lookup "A" =
      some ((([⟨10, "A"⟩, ⟨20, "A"⟩] : List SteamApp).filter
        (fun a => a.name == "A")).map (fun app => app.appid)) :=
  ⟨by decide, by decide, c4_ambiguous_matches _ _ _ (by decide) (by decide)⟩

theorem c8_duplicate_query_last_wins (steamApps : List SteamApp) (gameNames : List String)
    (g : String) (hmem : g ∈ gameNames) :
    ((findSteamAppIdsFullMatch (gameNames ++ [g]) steamApps).steamIDsSingleFullMatch.lookup g =
      (findSteamAppIdsFullMatch [g] steamApps).steamIDsSingleFullMatch.lookup g) ∧
    ((findSteamAppIdsFullMatch (gameNames ++ [g]) steamApps).steamIDsMultipleFullMatches.lookup g =
      (findSteamAppIdsFullMatch [g] steamApps).steamIDsMultipleFullMatches.lookup g) ∧
    (steamApps.filter (fun a => a.name == g) = [] →
      (findSteamAppIdsFullMatch (gameNames ++ [g]) steamApps).remainingGameNames.count g =
        gameNames.count g + 1) := by
  unfold findSteamAppIdsFullMatch
  refine ⟨?_, ?_, ?_⟩
  · rcases hfil : steamApps.filter (fun a => a.name == g) with _ | ⟨m1, _ | ⟨m2, ms⟩⟩
    · rw [fullMatch_single_stays _ _ _ _ _ _ (by rw [hfil]; simp),
        fullMatch_single_stays _ _ _ _ _ _ (by rw [hfil]; simp)]
    · rw [fullMatch_single_set _ _ _ _ _ _ m1 (List.mem_append_right _ (List.mem_singleton_self g)) hfil,
        fullMatch_single_set _ _ _ _ _ _ m1 (List.mem_singleton_self g) hfil]
    · rw [fullMatch_single_stays _ _ _ _ _ _ (by rw [hfil]; simp),
        fullMatch_single_stays _ _ _ _ _ _ (by rw [hfil]; simp)]
  · rcases hfil : steamApps.filter (fun a => a.name == g) with _ | ⟨m1, _ | ⟨m2, ms⟩⟩
    · rw [fullMatch_multi_stays _ _ _ _ _ _ (by rw [hfil]; simp),
        fullMatch_multi_stays _ _ _ _ _ _ (by rw [hfil]; simp)]
    · rw [fullMatch_multi_stays _ _ _ _ _ _ (by rw [hfil]; simp),
        fullMatch_multi_stays _ _ _ _ _ _ (by rw [hfil]; simp)]
    · rw [fullMatch_multi_set _ _ _ _ _ _ m1 m2 ms (List.mem_append_right _ (List.mem_singleton_self g)) hfil,
        fullMatch_multi_set _ _ _ _ _ _ m1 m2 ms (List.mem_singleton_self g) hfil]
  · intro hfil
    rw [fullMatchLoop_remaining]
    rw [List.nil_append, List.filter_append, List.count_append]
    rw [List.count_filter]
    · simp [hfil]
    · rw [hfil]
      rfl


theorem c1_witness :
    (["Portal", "X", "Halo"] : List String).Nodup ∧
    ((∀ g ∈ (["Portal", "X", "Halo"] : List String),
      ((g ∈ (findSteamAppIdsFullMatch ["Portal", "X", "Halo"]
          [⟨1, "Portal"⟩, ⟨2, "X"⟩, ⟨3, "X"⟩]).steamIDsSingleFullMatch.map Prod.fst) ↔
        (([⟨1, "Portal"⟩, ⟨2, "X"⟩, ⟨3, "X"⟩] : List SteamApp).filter
          (fun a => a.name == g)).length = 1) ∧
      ((g ∈ (findSteamAppIdsFullMatch ["Portal", "X", "Halo"]
          [⟨1, "Portal"⟩, ⟨2, "X"⟩, ⟨3, "X"⟩]).steamIDsMultipleFullMatches.map Prod.fst) ↔
        1 < (([⟨1, "Portal"⟩, ⟨2, "X"⟩, ⟨3, "X"⟩] : List SteamApp).filter
          (fun a => a.name == g)).length) ∧
      ((g ∈ (findSteamAppIdsFullMatch ["Portal", "X", "Halo"]
          [⟨1, "Portal"⟩, ⟨2, "X"⟩, ⟨3, "X"⟩]).remainingGameNames) ↔
        (([⟨1, "Portal"⟩, ⟨2, "X"⟩, ⟨3, "X"⟩] : List SteamApp).filter
          (fun a => a.name == g)).length = 0)) ∧
    ((((findSteamAppIdsFullMatch ["Portal", "X", "Halo"]
          [⟨1, "Portal"⟩, ⟨2, "X"⟩, ⟨3, "X"⟩]).steamIDsSingleFullMatch.map Prod.fst ++
       (findSteamAppIdsFullMatch ["Portal", "X", "Halo"]
          [⟨1, "Portal"⟩, ⟨2, "X"⟩, ⟨3, "X"⟩]).steamIDsMultipleFullMatches.map Prod.fst ++
       (findSteamAppIdsFullMatch ["Portal", "X", "Halo"]
          [⟨1, "Portal"⟩, ⟨2, "X"⟩, ⟨3, "X"⟩]).remainingGameNames : List String) :
        Multiset String) = ((["Portal", "X", "Halo"] : List String) : Multiset String))) :=
  ⟨by decide, c1_exact_match_partition [⟨1, "Portal"⟩, ⟨2, "X"⟩, ⟨3, "X"⟩]
    ["Portal", "X", "Halo"] (by decide)⟩

theorem c8_witness :
    ("A" ∈ (["A"] : List String)) ∧
    (((findSteamAppIdsFullMatch (["A"] ++ ["A"]) []).steamIDsSingleFullMatch.lookup "A" =
      (findSteamAppIdsFullMatch ["A"] []).steamIDsSingleFullMatch.lookup "A") ∧
    ((findSteamAppIdsFullMatch (["A"] ++ ["A"]) []).steamIDsMultipleFullMatches.lookup "A" =
      (findSteamAppIdsFullMatch ["A"] []).steamIDsMultipleFullMatches.lookup "A") ∧
    (([] : List SteamApp).filter (fun a => a.name == "A") = [] →
      (findSteamAppIdsFullMatch (["A"] ++ ["A"]) []).remainingGameNames.count "A" =
        (["A"] : List String).count "A" + 1)) :=
  ⟨by decide, c8_duplicate_query_last_wins [] ["A"] "A" (by decide)⟩

lemma bestOfAux_fst_lt (rs : List ℚ) : ∀ (i : Nat) (best : Nat × ℚ),
    best.1 < i → (bestOfAux i best rs).1 < i + rs.length := by
  induction rs with
  | nil =>
    intro i best hb
    simpa [bestOfAux] using hb
  | cons r rest ih =>
    intro i best hb
    simp only [bestOfAux, List.length_cons]
    have hb' : (if best.2 < r then (i, r) else best).1 < i + 1 := by
      split_ifs with hc
      · omega
      · omega
    have := ih (i + 1) (if best.2 < r then (i, r) else best) hb'
    omega

lemma findBestMatch_idx_lt (q : String) (targets : List String) (idx : Nat) (r : ℚ)
    (h : findBestMatch q targets = some (idx, r)) : idx < targets.length := by
  rcases targets with _ | ⟨t, ts⟩
  · simp [findBestMatch] at h
  · simp only [findBestMatch, Option.some_inj] at h
    have hlt := bestOfAux_fst_lt (ts.map (fun s => compareTwoStrings q s)) 1
      (0, compareTwoStrings q t) (by omega)
    rw [h] at hlt
    simp only [List.length_map] at hlt
    simp only [List.length_cons]
    omega

lemma bestMatchLoop_total (steamApps : List SteamApp) (t : ℚ)
    (hne : steamApps ≠ []) : ∀ (gs : List String) (best : List (String × BestEntry))
    (nm : List String), ∃ p, bestMatchLoop steamApps t gs best nm = some p := by
  intro gs
  induction gs with
  | nil =>
    intro best nm
    exact ⟨(best, nm), rfl⟩
  | cons game rest ih =>
    intro best nm
    have hmapne : steamApps.map (fun app => strToLower app.name) ≠ [] := by
      simpa using hne
    rcases hbm : findBestMatch (strToLower game) (steamApps.map (fun app => strToLower app.name))
      with _ | ⟨idx, rating⟩
    · rcases steamApps with _ | ⟨a, as⟩
      · exact absurd rfl hne
      · simp [findBestMatch] at hbm
    · have hidx : idx < steamApps.length := by
        have := findBestMatch_idx_lt _ _ _ _ hbm
        simpa using this
      have happ : steamApps[idx]? = some steamApps[idx] := List.getElem?_eq_getElem hidx
      simp only [bestMatchLoop, hbm, happ]
      split_ifs with hth
      · exact ih _ _
      · exact ih _ _

/-- C10: the similarity pass needs a non-empty catalog — with an empty catalog
and at least one remaining name the computation fails (`none`), never routing
names to the no-match list; with a non-empty catalog the best-match lookup at
the best index always succeeds and the pass returns a result. -/
theorem c10_best_match_requires_catalog (steamApps : List SteamApp)
    (gameNames : List String) (t : ℚ) :
    (steamApps = [] → gameNames ≠ [] →
      findSteamAppIdsBestMatch gameNames steamApps t = none) ∧
    (steamApps ≠ [] → ∃ r, findSteamAppIdsBestMatch gameNames steamApps t = some r) := by
  constructor
  · intro happs hne
    subst happs
    rcases gameNames with _ | ⟨g, gs⟩
    · exact absurd rfl hne
    · simp [findSteamAppIdsBestMatch, bestMatchLoop, findBestMatch]
  · intro hne
    obtain ⟨p, hp⟩ := bestMatchLoop_total steamApps t hne gameNames [] []
    exact ⟨(sortBySimilarityDesc p.1, p.2), by simp [findSteamAppIdsBestMatch, hp]⟩

theorem c10_witness :
    findSteamAppIdsBestMatch ["a"] [] 0 = none ∧
    ∃ r, findSteamAppIdsBestMatch ["a"] [⟨1, "a"⟩] 0 = some r :=
  ⟨(c10_best_match_requires_catalog [] ["a"] 0).1 rfl (by decide),
    (c10_best_match_requires_catalog [⟨1, "a"⟩] ["a"] 0).2 (by decide)⟩

lemma bestMatch_noMatch_mem (steamApps : List SteamApp) (t : ℚ) (g : String)
    (idx : Nat) (r : ℚ)
    (hb : findBestMatch (strToLower g) (steamApps.map (fun a => strToLower a.name)) = some (idx, r)) :
    ∀ (gs : List String) (best : List (String × BestEntry)) (nm : List String)
      (m3 : List (String × BestEntry)) (nm3 : List String),
      bestMatchLoop steamApps t gs best nm = some (m3, nm3) →
      (g ∈ nm3 ↔ (g ∈ nm ∨ (g ∈ gs ∧ r < t))) := by
  intro gs
  induction gs with
  | nil =>
    intro best nm m3 nm3 hloop
    simp only [bestMatchLoop, Option.some.injEq, Prod.mk.injEq] at hloop
    obtain ⟨h1, h2⟩ := hloop
    subst h2
    simp
  | cons game rest ih =>
    intro best nm m3 nm3 hloop
    by_cases hgame : game = g
    · subst hgame
      simp only [bestMatchLoop, hb] at hloop
      rcases happ : steamApps[idx]? with _ | app
      · rw [happ] at hloop
        simp at hloop
      · rw [happ] at hloop
        split_ifs at hloop with hth
        · rw [ih _ _ _ _ hloop]
          have hnl : ¬r < t := not_lt.mpr hth
          simp only [List.mem_cons, hnl]
          tauto
        · rw [ih _ _ _ _ hloop]
          have hlt : r < t := lt_of_not_ge hth
          simp only [List.mem_append, List.mem_cons, List.mem_singleton, hlt]
          tauto
    · have hgne : g ≠ game := fun h => hgame h.symm
      rcases hbm : findBestMatch (strToLower game) (steamApps.map (fun a => strToLower a.name))
        with _ | ⟨idx2, r2⟩
      · simp only [bestMatchLoop, hbm] at hloop
        simp at hloop
      · simp only [bestMatchLoop, hbm] at hloop
        rcases happ : steamApps[idx2]? with _ | app
        · rw [happ] at hloop
          simp at hloop
        · rw [happ] at hloop
          split_ifs at hloop with hth
          · rw [ih _ _ _ _ hloop]
            simp only [List.mem_cons]
            tauto
          · rw [ih _ _ _ _ hloop]
            simp only [List.mem_append, List.mem_cons, List.mem_singleton, hgne]
            tauto

lemma bestMatch_accept_lookup (steamApps : List SteamApp) (t : ℚ) (g : String)
    (idx : Nat) (r : ℚ) (app : SteamApp)
    (hb : findBestMatch (strToLower g) (steamApps.map (fun a => strToLower a.name)) = some (idx, r))
    (happ : steamApps[idx]? = some app) (hth : t ≤ r) :
    ∀ (gs : List String) (best : List (String × BestEntry)) (nm : List String)
      (m3 : List (String × BestEntry)) (nm3 : List String),
      bestMatchLoop steamApps t gs best nm = some (m3, nm3) →
      (g ∈ gs ∨ best.lookup g = some ⟨app.appid, r, app.name⟩) →
      m3.lookup g = some ⟨app.appid, r, app.name⟩ := by
  intro gs
  induction gs with
  | nil =>
    intro best nm m3 nm3 hloop hstart
    simp only [bestMatchLoop, Option.some.injEq, Prod.mk.injEq] at hloop
    obtain ⟨h1, h2⟩ := hloop
    subst h1
    rcases hstart with h | h
    · simp at h
    · exact h
  | cons game rest ih =>
    intro best nm m3 nm3 hloop hstart
    by_cases hgame : game = g
    · subst hgame
      simp only [bestMatchLoop, hb, happ] at hloop
      rw [if_pos hth] at hloop
      exact ih _ _ _ _ hloop (Or.inr (jsInsert_lookup_self _ _ _))
    · have hgne : g ≠ game := fun h => hgame h.symm
      rcases hbm : findBestMatch (strToLower game) (steamApps.map (fun a => strToLower a.name))
        with _ | ⟨idx2, r2⟩
      · simp only [bestMatchLoop, hbm] at hloop
        simp at hloop
      · simp only [bestMatchLoop, hbm] at hloop
        rcases happ2 : steamApps[idx2]? with _ | app2
        · rw [happ2] at hloop
          simp at hloop
        · rw [happ2] at hloop
          split_ifs at hloop with hth2
          · refine ih _ _ _ _ hloop ?_
            rcases hstart with h | h
            · rcases List.mem_cons.mp h with h2 | h2
              · exact absurd h2.symm hgame
              · exact Or.inl h2
            · exact Or.inr (by rw [jsInsert_lookup_ne _ _ _ _ hgne]; exact h)
          · refine ih _ _ _ _ hloop ?_
            rcases hstart with h | h
            · rcases List.mem_cons.mp h with h2 | h2
              · exact absurd h2.symm hgame
              · exact Or.inl h2
            · exact Or.inr h

lemma bestMatch_reject_lookup (steamApps : List SteamApp) (t : ℚ) (g : String)
    (idx : Nat) (r : ℚ)
    (hb : findBestMatch (strToLower g) (steamApps.map (fun a => strToLower a.name)) = some (idx, r))
    (hlt : r < t) :
    ∀ (gs : List String) (best : List (String × BestEntry)) (nm : List String)
      (m3 : List (String × BestEntry)) (nm3 : List String),
      bestMatchLoop steamApps t gs best nm = some (m3, nm3) →
      best.lookup g = none → m3.lookup g = none := by
  intro gs
  induction gs with
  | nil =>
    intro best nm m3 nm3 hloop hnone
    simp only [bestMatchLoop, Option.some.injEq, Prod.mk.injEq] at hloop
    obtain ⟨h1, h2⟩ := hloop
    subst h1
    exact hnone
  | cons game rest ih =>
    intro best nm m3 nm3 hloop hnone
    by_cases hgame : game = g
    · subst hgame
      simp only [bestMatchLoop, hb] at hloop
      rcases happ : steamApps[idx]? with _ | app
      · rw [happ] at hloop
        simp at hloop
      · simp only [happ] at hloop
        rw [if_neg (not_le.mpr hlt)] at hloop
        exact ih _ _ _ _ hloop hnone
    · have hgne : g ≠ game := fun h => hgame h.symm
      rcases hbm : findBestMatch (strToLower game) (steamApps.map (fun a => strToLower a.name))
        with _ | ⟨idx2, r2⟩
      · simp only [bestMatchLoop, hbm] at hloop
        simp at hloop
      · simp only [bestMatchLoop, hbm] at hloop
        rcases happ2 : steamApps[idx2]? with _ | app2
        · rw [happ2] at hloop
          simp at hloop
        · rw [happ2] at hloop
          split_ifs at hloop with hth2
          · refine ih _ _ _ _ hloop ?_
            rw [jsInsert_lookup_ne _ _ _ _ hgne]
            exact hnone
          · exact ih _ _ _ _ hloop hnone

/-- C3: a remaining query name is accepted exactly when its best rating reaches
the threshold (inclusive lower bound: equality accepts, strictly below routes
to the no-match list), and an accepted name is recorded as
`{appId, similarity, steamName}` taken from the matched catalog entry with its
original-casing name. -/
theorem c3_threshold_inclusive (steamApps : List SteamApp) (gameNames : List String)
    (t : ℚ) (g : String) (idx : Nat) (r : ℚ)
    (m : List (String × BestEntry)) (nm : List String) (hg : g ∈ gameNames)
    (hb : findBestMatch (strToLower g) (steamApps.map (fun a => strToLower a.name)) = some (idx, r))
    (hrun : bestMatchLoop steamApps t gameNames [] [] = some (m, nm)) :
    (g ∈ nm ↔ r < t) ∧
    (r < t → m.lookup g = none) ∧
    (t ≤ r → ∃ app, steamApps[idx]? = some app ∧
      m.lookup g = some ⟨app.appid, r, app.name⟩) := by
  refine ⟨?_, ?_, ?_⟩
  · have := bestMatch_noMatch_mem steamApps t g idx r hb gameNames [] [] m nm hrun
    simpa [hg] using this
  · intro hlt
    exact bestMatch_reject_lookup steamApps t g idx r hb hlt gameNames [] [] m nm hrun rfl
  · intro hth
    have hidx : idx < steamApps.length := by
      have := findBestMatch_idx_lt _ _ _ _ hb
      simpa using this
    refine ⟨steamApps[idx], List.getElem?_eq_getElem hidx, ?_⟩
    exact bestMatch_accept_lookup steamApps t g idx r steamApps[idx] hb
      (List.getElem?_eq_getElem hidx) hth gameNames [] [] m nm hrun (Or.inl hg)

theorem c3_witness :
    ("ab" ∈ (["ab"] : List String)) ∧
    (findBestMatch (strToLower "ab")
      (([⟨1, "ab"⟩] : List SteamApp).map (fun a => strToLower a.name)) = some (0, 1)) ∧
    (bestMatchLoop [⟨1, "ab"⟩] 1 ["ab"] [] [] =
      some ([("ab", ⟨1, 1, "ab"⟩)], [])) ∧
    ((("ab" ∈ ([] : List String)) ↔ (1 : ℚ) < 1) ∧
     ((1 : ℚ) < 1 →
       ([("ab", (⟨1, 1, "ab"⟩ : BestEntry))] : List (String × BestEntry)).lookup "ab" = none) ∧
     ((1 : ℚ) ≤ 1 → ∃ app, ([⟨1, "ab"⟩] : List SteamApp)[0]? = some app ∧
       ([("ab", (⟨1, 1, "ab"⟩ : BestEntry))] : List (String × BestEntry)).lookup "ab" =
         some ⟨app.appid, 1, app.name⟩)) :=
  ⟨by decide, by decide, by decide,
    c3_threshold_inclusive [⟨1, "ab"⟩] ["ab"] 1 "ab" 0 1
      [("ab", ⟨1, 1, "ab"⟩)] [] (by decide) (by decide) (by decide)⟩

lemma mem_insertDesc (x y : String × BestEntry) (l : List (String × BestEntry)) :
    y ∈ insertDesc x l ↔ y = x ∨ y ∈ l := by
  induction l with
  | nil => simp [insertDesc]
  | cons z zs ih =>
    simp only [insertDesc]
    split_ifs with hc
    · simp [List.mem_cons]
    · simp only [List.mem_cons, ih]
      tauto

lemma insertDesc_pairwise (x : String × BestEntry) (l : List (String × BestEntry))
    (h : l.Pairwise (fun a b => b.2.similarity ≤ a.2.similarity)) :
    (insertDesc x l).Pairwise (fun a b => b.2.similarity ≤ a.2.similarity) := by
  induction l with
  | nil => simp [insertDesc]
  | cons z zs ih =>
    obtain ⟨hz, hzs⟩ := List.pairwise_cons.mp h
    simp only [insertDesc]
    split_ifs with hc
    · refine List.Pairwise.cons ?_ h
      intro b hb
      rcases List.mem_cons.mp hb with rfl | hb2
      · exact le_of_lt hc
      · exact le_trans (hz b hb2) (le_of_lt hc)
    · refine List.Pairwise.cons ?_ (ih hzs)
      intro b hb
      rcases (mem_insertDesc x b zs).mp hb with rfl | hb2
      · exact not_lt.mp hc
      · exact hz b hb2

lemma insertDesc_filter_eq (x : String × BestEntry) (l : List (String × BestEntry)) (s : ℚ)
    (h : l.Pairwise (fun a b => b.2.similarity ≤ a.2.similarity)) :
    (insertDesc x l).filter (fun e => decide (e.2.similarity = s)) =
      l.filter (fun e => decide (e.2.similarity = s)) ++
        (if x.2.similarity = s then [x] else []) := by
  induction l with
  | nil =>
    by_cases hx : x.2.similarity = s
    · simp [insertDesc, List.filter_cons, hx]
    · simp [insertDesc, List.filter_cons, hx]
  | cons z zs ih =>
    obtain ⟨hz, hzs⟩ := List.pairwise_cons.mp h
    simp only [insertDesc]
    split_ifs with hc hx hx2
    · have hzempty : (z :: zs).filter (fun e => decide (e.2.similarity = s)) = [] := by
        rw [List.filter_eq_nil_iff]
        intro e he
        simp only [decide_eq_true_eq]
        intro hes
        rcases List.mem_cons.mp he with rfl | he2
        · exact absurd (hes.trans hx.symm) (ne_of_lt hc)
        · have hle := hz e he2
          rw [hes, ← hx] at hle
          exact absurd hc (not_lt.mpr hle)
      rw [List.filter_cons_of_pos (by simp [hx]), hzempty]
      simp
    · rw [List.filter_cons_of_neg (by simp [hx]), List.append_nil]
    · have ih2 := ih hzs
      rw [if_pos hx2] at ih2
      by_cases hzs2 : z.2.similarity = s
      · rw [List.filter_cons_of_pos (by simp [hzs2]),
          List.filter_cons_of_pos (by simp [hzs2]), ih2, List.cons_append]
      · rw [List.filter_cons_of_neg (by simp [hzs2]),
          List.filter_cons_of_neg (by simp [hzs2]), ih2]
    · have ih2 := ih hzs
      rw [if_neg hx2, List.append_nil] at ih2
      rw [List.append_nil]
      by_cases hzs2 : z.2.similarity = s
      · rw [List.filter_cons_of_pos (by simp [hzs2]),
          List.filter_cons_of_pos (by simp [hzs2]), ih2]
      · rw [List.filter_cons_of_neg (by simp [hzs2]),
          List.filter_cons_of_neg (by simp [hzs2]), ih2]

lemma sortAux_pairwise (l : List (String × BestEntry)) :
    ∀ acc, acc.Pairwise (fun a b => b.2.similarity ≤ a.2.similarity) →
      (l.foldl (fun a x => insertDesc x a) acc).Pairwise
        (fun a b => b.2.similarity ≤ a.2.similarity) := by
  induction l with
  | nil => intro acc h; simpa using h
  | cons x rest ih =>
    intro acc h
    simp only [List.foldl_cons]
    exact ih _ (insertDesc_pairwise x acc h)

lemma sortAux_filter (l : List (String × BestEntry)) (s : ℚ) :
    ∀ acc, acc.Pairwise (fun a b => b.2.similarity ≤ a.2.similarity) →
      (l.foldl (fun a x => insertDesc x a) acc).filter
          (fun e => decide (e.2.similarity = s)) =
        acc.filter (fun e => decide (e.2.similarity = s)) ++
          l.filter (fun e => decide (e.2.similarity = s)) := by
  induction l with
  | nil => intro acc h; simp
  | cons x rest ih =>
    intro acc h
    simp only [List.foldl_cons]
    rw [ih _ (insertDesc_pairwise x acc h), insertDesc_filter_eq x acc s h]
    rw [List.filter_cons, List.append_assoc]
    by_cases hx : x.2.similarity = s
    · simp [hx]
    · simp [hx]

lemma sortBySimilarityDesc_pairwise (l : List (String × BestEntry)) :
    (sortBySimilarityDesc l).Pairwise (fun a b => b.2.similarity ≤ a.2.similarity) :=
  sortAux_pairwise l [] (List.Pairwise.nil)

lemma sortBySimilarityDesc_filter (l : List (String × BestEntry)) (s : ℚ) :
    (sortBySimilarityDesc l).filter (fun e => decide (e.2.similarity = s)) =
      l.filter (fun e => decide (e.2.similarity = s)) := by
  have := sortAux_filter l s [] (List.Pairwise.nil)
  simpa [sortBySimilarityDesc] using this

/-- C2: the similarity-match mapping returned by the similarity pass is the
stable descending sort of the accepted matches: ordered by non-increasing
similarity score, and the entries of any fixed score appear in their original
insertion order (the order in which the query names were processed). -/
theorem c2_sorted_descending_stable (steamApps : List SteamApp)
    (gameNames : List String) (t : ℚ) (m : List (String × BestEntry))
    (nm : List String)
    (hrun : bestMatchLoop steamApps t gameNames [] [] = some (m, nm)) :
    findSteamAppIdsBestMatch gameNames steamApps t =
      some (sortBySimilarityDesc m, nm) ∧
    (sortBySimilarityDesc m).Pairwise
      (fun a b => b.2.similarity ≤ a.2.similarity) ∧
    (∀ s : ℚ, (sortBySimilarityDesc m).filter (fun e => decide (e.2.similarity = s)) =
      m.filter (fun e => decide (e.2.similarity = s))) := by
  refine ⟨?_, sortBySimilarityDesc_pairwise m, fun s => sortBySimilarityDesc_filter m s⟩
  simp [findSteamAppIdsBestMatch, hrun]

theorem c2_witness :
    (bestMatchLoop [⟨1, "ab"⟩, ⟨2, "c"⟩] 0 ["ab", "x"] [] [] =
      some ([("ab", ⟨1, 1, "ab"⟩), ("x", ⟨1, 0, "ab"⟩)], [])) ∧
    (findSteamAppIdsBestMatch ["ab", "x"] [⟨1, "ab"⟩, ⟨2, "c"⟩] 0 =
      some (sortBySimilarityDesc [("ab", ⟨1, 1, "ab"⟩), ("x", ⟨1, 0, "ab"⟩)], []) ∧
    (sortBySimilarityDesc [("ab", ⟨1, 1, "ab"⟩), ("x", ⟨1, 0, "ab"⟩)]).Pairwise
      (fun a b => b.2.similarity ≤ a.2.similarity) ∧
    (∀ s : ℚ, (sortBySimilarityDesc
        [("ab", ⟨1, 1, "ab"⟩), ("x", ⟨1, 0, "ab"⟩)]).filter
          (fun e => decide (e.2.similarity = s)) =
      ([("ab", ⟨1, 1, "ab"⟩), ("x", ⟨1, 0, "ab"⟩)] :
        List (String × BestEntry)).filter (fun e => decide (e.2.similarity = s)))) :=
  ⟨by decide, c2_sorted_descending_stable [⟨1, "ab"⟩, ⟨2, "c"⟩] ["ab", "x"] 0
    [("ab", ⟨1, 1, "ab"⟩), ("x", ⟨1, 0, "ab"⟩)] [] (by decide)⟩

/-- C5: with `onlyFullMatches` set the pipeline stops after the exact-match
pass: the output carries exactly the two exact-match groupings and neither a
similarity-match grouping nor a no-match grouping, whatever names remained
unmatched. -/
theorem c5_only_full_matches_short_circuit (partialMatchThreshold : ℚ)
    (steamApps : List SteamApp) (gameNames : List String) :
    main true partialMatchThreshold steamApps gameNames =
      some ⟨(findSteamAppIdsFullMatch gameNames steamApps).steamIDsSingleFullMatch,
        (findSteamAppIdsFullMatch gameNames steamApps).steamIDsMultipleFullMatches,
        none, none⟩ := by
  rfl

/-- C6: a query name and a catalog name that differ only in letter case are
not an exact match (the exact pass is case-sensitive, so the query stays in
the remaining list), while the similarity pass scores them 1 after
lower-casing and accepts the pair — both in the same run. -/
theorem c6_case_asymmetry (q c : String) (appId : Nat) (t : ℚ)
    (hne : q ≠ c) (hlc : strToLower q = strToLower c) (ht : t ≤ 1) :
    (findSteamAppIdsFullMatch [q] [⟨appId, c⟩]).remainingGameNames = [q] ∧
    compareTwoStrings (strToLower q) (strToLower c) = 1 ∧
    findSteamAppIdsBestMatch [q] [⟨appId, c⟩] t = some ([(q, ⟨appId, 1, c⟩)], []) := by
  have hcmp : compareTwoStrings (strToLower q) (strToLower c) = 1 := by
    rw [hlc]
    exact compareTwoStrings_self _
  have hcne : ((⟨appId, c⟩ : SteamApp).name == q) = false :=
    beq_false_of_ne (fun h2 => hne h2.symm)
  refine ⟨?_, hcmp, ?_⟩
  · unfold findSteamAppIdsFullMatch
    rw [fullMatchLoop_remaining]
    simp [List.filter_cons, hcne]
    exact fun h2 => hne h2.symm
  · unfold findSteamAppIdsBestMatch
    simp only [bestMatchLoop, findBestMatch, List.map_cons, List.map_nil, bestOfAux, hcmp]
    simp only [List.getElem?_cons_zero]
    rw [if_pos ht]
    simp [bestMatchLoop, jsInsert, sortBySimilarityDesc, insertDesc]

theorem c6_witness :
    ("Portia" ≠ "portia") ∧
    (strToLower "Portia" = strToLower "portia") ∧
    ((1 : ℚ) ≤ 1) ∧
    ((findSteamAppIdsFullMatch ["Portia"] [⟨1, "portia"⟩]).remainingGameNames =
      ["Portia"] ∧
    compareTwoStrings (strToLower "Portia") (strToLower "portia") = 1 ∧
    findSteamAppIdsBestMatch ["Portia"] [⟨1, "portia"⟩] 1 =
      some ([("Portia", ⟨1, 1, "portia"⟩)], [])) :=
  ⟨by decide, by decide, by decide,
    c6_case_asymmetry "Portia" "portia" 1 1 (by decide) (by decide) (by decide)⟩

lemma fullMatchLoopH_spec (h : Heap) (gs : List String) :
    ∀ s mu rem, fullMatchLoopH h gs s mu rem =
      (h, fullMatchLoop h.steamApps gs s mu rem) := by
  induction gs with
  | nil =>
    intro s mu rem
    rfl
  | cons game rest ih =>
    intro s mu rem
    rcases hfil : h.steamApps.filter (fun app => app.name == game)
        with _ | ⟨m1, _ | ⟨m2, ms⟩⟩ <;>
      simp only [fullMatchLoopH, fullMatchLoop, hfil] <;> exact ih _ _ _

lemma bestMatchLoopH_spec (h : Heap) (t : ℚ) (gs : List String) :
    ∀ best nm, bestMatchLoopH h t gs best nm =
      (h, bestMatchLoop h.steamApps t gs best nm) := by
  induction gs with
  | nil =>
    intro best nm
    rfl
  | cons game rest ih =>
    intro best nm
    rcases hbm : findBestMatch (strToLower game)
        (h.steamApps.map (fun app => strToLower app.name)) with _ | ⟨idx, r⟩
    · simp only [bestMatchLoopH, bestMatchLoop, hbm]
    · rcases happ : h.steamApps[idx]? with _ | app
      · simp only [bestMatchLoopH, bestMatchLoop, hbm, happ]
      · simp only [bestMatchLoopH, bestMatchLoop, hbm, happ]
        split_ifs with hth <;> exact ih _ _

/-- C9: the two passes only read the catalog array and the query-name array:
run over the heap holding both arrays, each pass leaves the heap unchanged and
returns exactly the result of the pure pass (lower-casing happens on copies). -/
theorem c9_passes_read_only (h : Heap) (t : ℚ) :
    (findSteamAppIdsFullMatchH h).1 = h ∧
    (findSteamAppIdsBestMatchH h t).1 = h ∧
    (findSteamAppIdsFullMatchH h).2 = findSteamAppIdsFullMatch h.gameNames h.steamApps ∧
    (findSteamAppIdsBestMatchH h t).2 =
      findSteamAppIdsBestMatch h.gameNames h.steamApps t := by
  refine ⟨?_, ?_, ?_, ?_⟩ <;>
    simp [findSteamAppIdsFullMatchH, findSteamAppIdsBestMatchH,
      fullMatchLoopH_spec, bestMatchLoopH_spec, findSteamAppIdsFullMatch,
      findSteamAppIdsBestMatch]

end GameNameToSteamAppId
